import Mathlib

/-!
Verification development for the Wells_MCP HyperExecute log tracker.

The definitions below are shallow embeddings of the TypeScript source in
`src/server/tools/cli-log.ts` (active revision: the polling watchers, the
error race detector, the job-link extractor and the `HyperexecuteServer`
job-lifecycle tracker) and of the legacy revision `src/cli-log.ts`.
Asynchronous polling is modelled by a tick-indexed log-read oracle
(`Nat → ReadOutcome`): tick `n` fires at wall-clock time `(n+1) * intervalMs`,
mirroring `setInterval` whose first callback runs one interval after creation.
The Node.js event loop runs timers of equal expiry in creation order, so the
`Promise.race` in `detectFirstCLIEvent` is modelled by picking the candidate
with the least settle time, ties broken by declaration index (FIFO).
The tracker's `advance` step is a function of the current run state and an
`Env` record holding the settled outcome of each log check the call may
perform.  Strings are modelled by their character lists; `toLowerCase` is
modelled by the ASCII `Char.toLower` (the log substrings involved are ASCII).
-/

set_option maxRecDepth 16384

namespace WellsMCP

/-- Substring test on character lists: `isSubList n h` is true iff `n`
occurs contiguously inside `h` (the embedding of JavaScript
`String.prototype.includes`). -/
def isSubList : List Char → List Char → Bool
  | needle, [] => needle.isEmpty
  | needle, c :: t => needle.isPrefixOf (c :: t) || isSubList needle t

/-- Active milestone matcher, from `waitForLogMessage` in
`src/server/tools/cli-log.ts` line 49:
`contents.toLowerCase().includes(searchString.toLowerCase())`. -/
def logContains (content term : String) : Bool :=
  isSubList (term.data.map Char.toLower) (content.data.map Char.toLower)

/-- Legacy milestone matcher, from `waitForLogMessage` in `src/cli-log.ts`
line 30: `contents.includes(searchString)` (no case folding). -/
def logContainsCS (content term : String) : Bool :=
  isSubList term.data content.data

/-- Two strings differ only in letter case: their character-wise
lower-casings agree. -/
def caseEquiv (s t : String) : Prop :=
  s.data.map Char.toLower = t.data.map Char.toLower

instance (s t : String) : Decidable (caseEquiv s t) := by
  unfold caseEquiv; infer_instance

/-- Outcome of one `fs` read attempt inside a poll tick: the file is absent,
the file has some content, or reading raises an I/O error. -/
inductive ReadOutcome where
  | missing : ReadOutcome
  | fileContent : String → ReadOutcome
  | ioErr : ReadOutcome
deriving DecidableEq, Repr

/-- Result of one watcher run: the promise resolved `true` (term found),
resolved `false` (timeout / not found), or rejected (I/O error). -/
inductive WResult where
  | found : WResult
  | notFound : WResult
  | errored : WResult
deriving DecidableEq, Repr

/-- One `setInterval` callback of `waitForLogMessage`, at tick `n`
(wall-clock `(n+1) * intervalMs`).  The timeout is checked before any I/O;
a missing file does not resolve the promise; a read error rejects it;
otherwise the matcher decides.  `none` means the tick leaves the promise
pending. -/
def tickOutcome (matchFn : String → String → Bool) (timeoutMs intervalMs : Nat)
    (term : String) (log : Nat → ReadOutcome) (n : Nat) : Option WResult :=
  if (n + 1) * intervalMs > timeoutMs then
    some .notFound
  else
    match log n with
    | .missing => none
    | .ioErr => some .errored
    | .fileContent s => if matchFn s term then some .found else none

/-- Some tick always settles the watcher: at tick `timeoutMs` the elapsed
time `(timeoutMs + 1) * intervalMs` exceeds the budget. -/
def tickSettles (matchFn : String → String → Bool)
    (timeoutMs intervalMs : Nat) (hi : 0 < intervalMs)
    (term : String) (log : Nat → ReadOutcome) :
    ∃ n, (tickOutcome matchFn timeoutMs intervalMs term log n).isSome = true := by
  refine ⟨timeoutMs, ?_⟩
  have h : (timeoutMs + 1) * intervalMs > timeoutMs := by
    calc timeoutMs < timeoutMs + 1 := Nat.lt_succ_self _
    _ ≤ (timeoutMs + 1) * intervalMs := Nat.le_mul_of_pos_right _ hi
  simp [tickOutcome, h]

/-- Index of the first tick that settles the watcher. -/
def resolveTick (matchFn : String → String → Bool) (timeoutMs intervalMs : Nat)
    (hi : 0 < intervalMs) (term : String) (log : Nat → ReadOutcome) : Nat :=
  Nat.find (tickSettles matchFn timeoutMs intervalMs hi term log)

/-- Settled result of the watcher (the value of the first settling tick). -/
def watcherResult (matchFn : String → String → Bool) (timeoutMs intervalMs : Nat)
    (hi : 0 < intervalMs) (term : String) (log : Nat → ReadOutcome) : WResult :=
  (tickOutcome matchFn timeoutMs intervalMs term log
    (resolveTick matchFn timeoutMs intervalMs hi term log)).getD .notFound

/-- Wall-clock milliseconds elapsed when the watcher settles. -/
def watcherElapsedMs (matchFn : String → String → Bool) (timeoutMs intervalMs : Nat)
    (hi : 0 < intervalMs) (term : String) (log : Nat → ReadOutcome) : Nat :=
  (resolveTick matchFn timeoutMs intervalMs hi term log + 1) * intervalMs

/-- Active `waitForLogMessage` (`src/server/tools/cli-log.ts` lines 27-60):
it first resolves the log path with `findFileAbsolutePath`; when that fails
it returns `Promise.resolve(false)` immediately (elapsed time 0); otherwise
it polls.  Returns the settled result with its elapsed wall-clock time. -/
def waitForLogMessage (pathFoundAtStart : Bool) (timeoutMs intervalMs : Nat)
    (hi : 0 < intervalMs) (term : String) (log : Nat → ReadOutcome) :
    WResult × Nat :=
  match pathFoundAtStart with
  | false => (.notFound, 0)
  | true =>
    (watcherResult logContains timeoutMs intervalMs hi term log,
     watcherElapsedMs logContains timeoutMs intervalMs hi term log)

/-- Legacy `waitForLogMessage` (`src/cli-log.ts` lines 10-41): the path is
`path.resolve`d unconditionally and polling always starts; the matcher is
case-sensitive. -/
def waitForLogMessageLegacy (timeoutMs intervalMs : Nat)
    (hi : 0 < intervalMs) (term : String) (log : Nat → ReadOutcome) :
    WResult × Nat :=
  (watcherResult logContainsCS timeoutMs intervalMs hi term log,
   watcherElapsedMs logContainsCS timeoutMs intervalMs hi term log)

/-- Winner of a `Promise.race` among settled candidates `(type, result,
settleTimeMs)`: least settle time wins, and on equal times the candidate
created first (earlier in the list) wins — Node runs timers of equal expiry
in creation order. -/
def raceWinner : List (String × WResult × Nat) → Option (String × WResult × Nat)
  | [] => none
  | x :: rest =>
    match raceWinner rest with
    | none => some x
    | some y => if x.2.2 ≤ y.2.2 then some x else some y

/-- Settled `(result, elapsedMs)` of one `checkLogForMessage` candidate of
the race, polling a log whose content stays `content` (the snapshot of the
claim); all four candidates use budget `(30000, 2000)`. -/
def cliCheckSettle (content term : String) : WResult × Nat :=
  (watcherResult logContains 30000 2000 (by omega) term (fun _ => .fileContent content),
   watcherElapsedMs logContains 30000 2000 (by omega) term (fun _ => .fileContent content))

/-- One candidate of `detectFirstCLIEvent`, tagged with its event type. -/
def raceEntry (content ty term : String) : String × WResult × Nat :=
  (ty, cliCheckSettle content term)

/-- The four race candidates of `detectFirstCLIEvent`
(`src/server/tools/cli-log.ts` lines 135-140), in declaration order. -/
def errorRaceCandidates (content : String) : List (String × WResult × Nat) :=
  [raceEntry content "InvalidCredentials" "Invalid user/key credentials",
   raceEntry content "ProjectNotFound" "Project not found",
   raceEntry content "YAMLParseError" "Unable to parse hyperexecute.yaml",
   raceEntry content "YAMLConfigError" "Invalid yaml content"]

/-- Embedding of `detectFirstCLIEvent` (`src/server/tools/cli-log.ts` lines
134-147): `Promise.race` over the four candidates; a candidate that resolved
`true` contributes its type, any other settles the race with `null`, and
`firstResult || null` maps that to `null`. -/
def detectFirstCLIEvent (content : String) : Option String :=
  match raceWinner (errorRaceCandidates content) with
  | some (ty, .found, _) => some ty
  | _ => none

/-- ASCII apostrophe, kept out of string literals. -/
def apos : String := (Char.ofNat 39).toString

/-- Message of a successful trigger check (line 832). -/
def msgTriggered : String :=
  "CLI Job triggered successfully, lets check for the job link."

/-- Error thrown when `advance` runs before any successful `run` (line 834). -/
def errNotStarted : String :=
  "Tests not started - Please run the tests in hyperexecute CLI."

/-- Remediation message for the InvalidCredentials event (line 848). -/
def msgInvalidCredentials : String :=
  "Invalid credentials. Please input the valid hyperexecute credentials and run tests again."

/-- Remediation message for the ProjectNotFound event (line 851). -/
def msgProjectNotFound : String :=
  "Project not found. Please input the valid hyperexecute project name, ID into yaml and run tests again."

/-- Remediation message for the YAMLParseError event (line 854). -/
def msgYamlParse : String :=
  "Unable to parse hyperexecute.yaml. Please create a new valid hyperexecute.yaml and run tests again."

/-- Remediation message for the YAMLConfigError event (line 857). -/
def msgYamlConfig : String :=
  "Invalid yaml content. Please create a new valid hyperexecute.yaml and run tests again."

/-- Message of the default switch arm: no error detected (line 860). -/
def msgNoError : String :=
  "None of the errors are found, can proceed looking for the job link in cli logs."

/-- Progress message of the upload-started step (line 876). -/
def msgUploadStarted : String :=
  "Uploading archives started. Please wait for the archives to be uploaded."

/-- Progress message of the upload-done step (line 881). -/
def msgUploadDone : String :=
  "Uploading archives done. Let" ++ apos ++
    "s wait for the server connection to be established."

/-- Progress message of the server-connected step (line 886). -/
def msgServerConnected : String :=
  "Server connection established. Please wait for the job link or at least test to terminate."

/-- Message carrying the job link (lines 891 and 923). -/
def linkMsg (link : String) : String :=
  "Job link is generated. Here is the job link: " ++ link

/-- Error thrown when tracking finished without a link (line 916). -/
def errTerminated : String :=
  "Job link is not generated, but test has been terminated."

/-- Message returned while the job is still running (line 919). -/
def msgStillRunning : String :=
  "Job is still running, waiting for job link..."

/-- Message produced by the tool-level catch handler (line 930). -/
def catchMsg (e : String) : String :=
  "Error getting the job link: " ++ e ++
    ". \n Exiting the user request. Kindly analyze your project manually & try again later!"

/-- Mutable per-run state of `HyperexecuteServer`
(`src/server/tools/cli-log.ts` lines 509-516). -/
structure ServerState where
  jobStarted : Bool
  noError : Bool
  uploadStarted : Bool
  uploadDone : Bool
  serverConnected : Bool
  jobLink : Bool
  jobDone : Bool
  jobExecutionLink : String
deriving DecidableEq, Repr

/-- Initial field values of `HyperexecuteServer`. -/
def freshState : ServerState :=
  ⟨false, false, false, false, false, false, false, ""⟩

/-- Settled outcomes of the log checks one `advance` call may perform:
`triggered` for `isJobTriggered`, `firstEvent` for `detectFirstCLIEvent`,
one flag per job step check, `trackStoppedChk` for `isJobTrackStopped`,
and `jobLinkValue` for `getJobLink`. -/
structure Env where
  triggered : Bool
  firstEvent : Option String
  uploadStartedChk : Bool
  uploadDoneChk : Bool
  serverConnectedChk : Bool
  jobLinkChk : Bool
  trackStoppedChk : Bool
  jobLinkValue : String
deriving DecidableEq, Repr

/-- Result of the `try` body of the analyze tool: a returned message or a
thrown error, each with the mutated state (field writes persist across a
throw). -/
inductive AdvOutcome where
  | ret : String → ServerState → AdvOutcome
  | thrown : String → ServerState → AdvOutcome
deriving DecidableEq, Repr

/-- State carried by an outcome. -/
def AdvOutcome.stateOf : AdvOutcome → ServerState
  | .ret _ s => s
  | .thrown _ s => s

/-- Code after the job-steps loop (lines 912-923): if no link yet, re-run
the termination check, storing its result in `jobDone`; a positive check
throws, a negative one reports "still running"; with a link already found,
return the cached link message. -/
def afterSteps (env : Env) (s : ServerState) : AdvOutcome :=
  if s.jobLink = false then
    let s' := { s with jobDone := env.trackStoppedChk }
    if env.trackStoppedChk then .thrown errTerminated s'
    else .ret msgStillRunning s'
  else .ret (linkMsg s.jobExecutionLink) s

/-- Fourth job step (lines 888-893): when the server is connected and no
link is known, run the link check; on success store the link from
`getJobLink` and return its message. -/
def step4 (env : Env) (s : ServerState) : AdvOutcome :=
  if s.serverConnected && !s.jobLink then
    let s' := { s with jobLink := env.jobLinkChk }
    if env.jobLinkChk then
      .ret (linkMsg env.jobLinkValue) { s' with jobExecutionLink := env.jobLinkValue }
    else afterSteps env s'
  else afterSteps env s

/-- Third job step (lines 883-887): server-connection check. -/
def step3 (env : Env) (s : ServerState) : AdvOutcome :=
  if s.uploadDone && !s.serverConnected then
    let s' := { s with serverConnected := env.serverConnectedChk }
    if env.serverConnectedChk then .ret msgServerConnected s'
    else step4 env s'
  else step4 env s

/-- Second job step (lines 878-882): upload-done check. -/
def step2 (env : Env) (s : ServerState) : AdvOutcome :=
  if s.uploadStarted && !s.uploadDone then
    let s' := { s with uploadDone := env.uploadDoneChk }
    if env.uploadDoneChk then .ret msgUploadDone s'
    else step3 env s'
  else step3 env s

/-- First job step (lines 873-877): upload-started check. -/
def step1 (env : Env) (s : ServerState) : AdvOutcome :=
  if !s.uploadStarted then
    let s' := { s with uploadStarted := env.uploadStartedChk }
    if env.uploadStartedChk then .ret msgUploadStarted s'
    else step2 env s'
  else step2 env s

/-- Job-steps loop entry (line 896): runs only while the job has started
and is not done. -/
def jobStepsLoop (env : Env) (s : ServerState) : AdvOutcome :=
  if s.jobStarted && !s.jobDone then step1 env s else afterSteps env s

/-- Error-detector switch (lines 844-869): a detected event returns its
remediation message leaving the state untouched; the default arm records
`noError` and returns the no-error message.  The block always returns. -/
def errorSwitch (env : Env) (s : ServerState) : AdvOutcome :=
  match env.firstEvent with
  | some "InvalidCredentials" => .ret msgInvalidCredentials s
  | some "ProjectNotFound" => .ret msgProjectNotFound s
  | some "YAMLParseError" => .ret msgYamlParse s
  | some "YAMLConfigError" => .ret msgYamlConfig s
  | _ => .ret msgNoError { s with noError := true }

/-- Body of the `analyze-hyperexecute-cli-run` tool handler's `try` block
(lines 827-923): trigger branch, error-detector branch, job-steps loop,
post-loop code. -/
def advanceBody (env : Env) (s : ServerState) : AdvOutcome :=
  if s.jobStarted = false then
    let s' := { s with jobStarted := env.triggered }
    if env.triggered then .ret msgTriggered s'
    else .thrown errNotStarted s'
  else if s.noError = false then errorSwitch env s
  else jobStepsLoop env s

/-- Full `advance` call: the `try` body with the tool-level catch handler
(lines 925-933), which converts every thrown error to a message. -/
def advance (env : Env) (s : ServerState) : String × ServerState :=
  match advanceBody env s with
  | .ret m s' => (m, s')
  | .thrown e s' => (catchMsg e, s')

/-- Flag reset performed by `run-tests-on-hyperexecute` (line 789):
all seven run flags to `false`; `jobExecutionLink` is not reset. -/
def resetFlags (s : ServerState) : ServerState :=
  { s with jobStarted := false, noError := false, uploadStarted := false,
           uploadDone := false, serverConnected := false, jobLink := false,
           jobDone := false }

/-- Reachable-state chain invariant of the tracker: each milestone flag
implies its predecessors. -/
def chainInv (s : ServerState) : Prop :=
  (s.uploadStarted = true → s.jobStarted = true ∧ s.noError = true) ∧
  (s.uploadDone = true → s.uploadStarted = true) ∧
  (s.serverConnected = true → s.uploadDone = true) ∧
  (s.jobLink = true → s.serverConnected = true)

instance (s : ServerState) : Decidable (chainInv s) := by
  unfold chainInv; infer_instance

/-- Monotonicity of the six unconditionally monotone flags between two
states. -/
def flagsMono (a b : ServerState) : Prop :=
  (a.jobStarted = true → b.jobStarted = true) ∧
  (a.noError = true → b.noError = true) ∧
  (a.uploadStarted = true → b.uploadStarted = true) ∧
  (a.uploadDone = true → b.uploadDone = true) ∧
  (a.serverConnected = true → b.serverConnected = true) ∧
  (a.jobLink = true → b.jobLink = true)

/-- Monotonicity across one `advance` step under environment `env`:
the six flags unconditionally, and `jobDone` provided the termination
check still succeeds (an append-only log keeps a found substring found). -/
def monoStep (env : Env) (a b : ServerState) : Prop :=
  flagsMono a b ∧
  (a.jobDone = true → env.trackStoppedChk = true → b.jobDone = true)

/-- JavaScript `\s` on the ASCII range: the whitespace characters the
`Job Link` regex may skip. -/
def isSpaceJS (c : Char) : Bool :=
  c == ' ' || c == '\t' || c == '\n' || c == '\r' || c == '\x0b' || c == '\x0c'

/-- Consume an exact literal prefix, returning the remainder. -/
def dropLiteral : List Char → List Char → Option (List Char)
  | [], l => some l
  | _ :: _, [] => none
  | p :: ps, c :: cs => if c == p then dropLiteral ps cs else none

/-- Consume `[0-9;]*m` (the tail of an ANSI escape sequence `ESC [ … m`),
returning the remainder, or `none` when the sequence is not closed. -/
def ansiSeq : List Char → Option (List Char)
  | [] => none
  | c :: cs =>
    if c == 'm' then some cs
    else if c.isDigit || c == ';' then ansiSeq cs
    else none

/-- Consuming an ANSI tail strictly shortens the list. -/
def ansiSeq_shrinks : ∀ l r, ansiSeq l = some r → r.length < l.length := by
  intro l
  induction l with
  | nil => intro r h; simp [ansiSeq] at h
  | cons c cs ih =>
    intro r h
    rw [ansiSeq] at h
    by_cases h1 : c == 'm'
    · rw [if_pos h1] at h
      cases h
      simp
    · rw [if_neg h1] at h
      by_cases h2 : c.isDigit || c == ';'
      · rw [if_pos h2] at h
        have := ih r h
        simp only [List.length_cons]
        omega
      · rw [if_neg h2] at h
        exact absurd h (by simp)

/-- Fuelled scanner of the ANSI-stripping pass: at a position holding
`ESC` followed by `[`, a complete escape sequence is removed and scanning
resumes after it; an incomplete one keeps the `ESC` and resumes at the
`[`; any other character is kept.  The fuel only forces structural
recursion: every step consumes at least one character, so fuel
`l.length` never runs out (`stripAnsiGo_fuel`). -/
def stripAnsiGo : Nat → List Char → List Char
  | 0, l => l
  | _ + 1, [] => []
  | fuel + 1, c :: cs =>
    if c = '\x1b' ∧ cs.head? = some '[' then
      match ansiSeq cs.tail with
      | some rest => stripAnsiGo fuel rest
      | none => c :: stripAnsiGo fuel cs
    else c :: stripAnsiGo fuel cs

/-- One left-to-right pass removing every complete ANSI escape sequence
`ESC '[' [0-9;]* 'm'`, the embedding of
`content.replace(/\u001b\[[0-9;]*m/g, "")` (line 120). -/
def stripAnsi (l : List Char) : List Char := stripAnsiGo l.length l

/-- Attempt to match `Job Link:\s*(https?:\/\/\S+)` at the head of `l`,
returning the first capture group (scheme included). -/
def matchLinkAt (l : List Char) : Option String :=
  match dropLiteral "Job Link:".data l with
  | none => none
  | some rest =>
    let rest2 := rest.dropWhile (fun c => isSpaceJS c)
    if "https://".data.isPrefixOf rest2 || "http://".data.isPrefixOf rest2 then
      let n : Nat := if "https://".data.isPrefixOf rest2 then 8 else 7
      if ((rest2.drop n).takeWhile (fun c => !(isSpaceJS c))).isEmpty then none
      else some (String.mk (rest2.takeWhile (fun c => !(isSpaceJS c))))
    else none

/-- Leftmost match of the job-link pattern over the whole snapshot:
try every position from the left, first success wins (the embedding of
`cleanContent.match(/Job Link:\s*(https?:\/\/\S+)/)?.[1]`, line 122). -/
def findLink : List Char → Option String
  | [] => none
  | c :: t =>
    match matchLinkAt (c :: t) with
    | some u => some u
    | none => findLink t

/-- Sentinel returned by `getJobLink` when no link is available. -/
def jobLinkSentinel : String := "Job link not found or not yet generated"

/-- Embedding of `getJobLink` (lines 113-128): `none` stands for every
failure of the `try` block (log file not found, read error); otherwise the
content is ANSI-stripped and scanned for the first labeled URL; `jobLink ||
sentinel` yields the sentinel when there is no match. -/
def getJobLink (file : Option String) : String :=
  match file with
  | none => jobLinkSentinel
  | some content =>
    match findLink (stripAnsi content.data) with
    | some u => u
    | none => jobLinkSentinel

/-- One file of the modelled directory tree, identified by the directory
components and file name of its path, listed in traversal order. -/
structure FSFile where
  dirs : List String
  fname : String
  content : String
deriving DecidableEq, Repr

/-- Case-insensitive file-name comparison
(`entry.name.toLocaleLowerCase() === fileName.toLocaleLowerCase()`). -/
def lowerEqName (a b : String) : Bool :=
  a.data.map Char.toLower == b.data.map Char.toLower

/-- Embedding of `findFileAbsolutePath` (`src/commons/fileOperations.ts`
lines 50-63): depth-first search for the first file whose name matches
case-insensitively, anywhere in the tree. -/
def findFileAbsolutePath (fs : List FSFile) (target : String) : Option FSFile :=
  fs.find? (fun f => lowerEqName f.fname target)

/-- Embedding of `fileOperations.deleteFile` (lines 123-127): unlink the
file at exactly the given path, if it exists. -/
def deleteFile (fs : List FSFile) (dirs : List String) (target : String) :
    List FSFile :=
  fs.filter (fun f => !(f.dirs == dirs && f.fname == target))

/-- File name of the CLI log. -/
def cliLogName : String := "hyperexecute-cli.log"

/-- Prologue of `run-tests-on-hyperexecute` (lines 787-793): reset the
seven run flags, then search the whole tree for `hyperexecute-cli.log` and,
when some match is found, delete the file at the cwd-relative path
`hyperexecute-cli.log` — i.e. at the root, regardless of where the match
was found. -/
def runTestsPrologue (fs : List FSFile) (s : ServerState) :
    ServerState × List FSFile :=
  let s' := resetFlags s
  match findFileAbsolutePath fs cliLogName with
  | some _ => (s', deleteFile fs [] cliLogName)
  | none => (s', fs)

/-! ## Theorems -/

/-- A tick can settle with `notFound` only when its wall-clock time already
exceeds the timeout budget (the timeout test precedes all I/O). -/
theorem tickOutcome_notFound {matchFn : String → String → Bool}
    {T i : Nat} {term : String} {log : Nat → ReadOutcome} {n : Nat}
    (h : tickOutcome matchFn T i term log n = some .notFound) :
    (n + 1) * i > T := by
  by_cases hgt : (n + 1) * i > T
  · exact hgt
  · exfalso
    rw [tickOutcome, if_neg hgt] at h
    cases hlog : log n <;> rw [hlog] at h <;> simp at h

/-- The settling tick always has a settled (`isSome`) outcome. -/
theorem tickOutcome_resolveTick_isSome (matchFn : String → String → Bool)
    (T i : Nat) (hi : 0 < i) (term : String) (log : Nat → ReadOutcome) :
    (tickOutcome matchFn T i term log
      (resolveTick matchFn T i hi term log)).isSome = true :=
  Nat.find_spec (tickSettles matchFn T i hi term log)

/-- Timeout lower bound: whenever the watcher settles with `notFound`, its
elapsed wall-clock time strictly exceeds the timeout budget. -/
theorem watcherResult_notFound_gt (matchFn : String → String → Bool)
    (T i : Nat) (hi : 0 < i) (term : String) (log : Nat → ReadOutcome)
    (h : watcherResult matchFn T i hi term log = .notFound) :
    watcherElapsedMs matchFn T i hi term log > T := by
  have hs := tickOutcome_resolveTick_isSome matchFn T i hi term log
  rw [watcherResult] at h
  rw [watcherElapsedMs]
  cases ho : tickOutcome matchFn T i term log (resolveTick matchFn T i hi term log) with
  | none => rw [ho] at hs; simp at hs
  | some w =>
    rw [ho] at h; simp at h
    subst h
    exact tickOutcome_notFound ho

/-- If no tick inside the budget settles the watcher, the settling tick is
exactly the first tick past the budget, `T / i`. -/
theorem resolveTick_of_never (matchFn : String → String → Bool)
    (T i : Nat) (hi : 0 < i) (term : String) (log : Nat → ReadOutcome)
    (hnever : ∀ n, (n + 1) * i ≤ T → tickOutcome matchFn T i term log n = none) :
    resolveTick matchFn T i hi term log = T / i := by
  rw [resolveTick, Nat.find_eq_iff]
  constructor
  · have hgt : T < (T / i + 1) * i :=
      (Nat.div_lt_iff_lt_mul hi).mp (Nat.lt_succ_self (T / i))
    simp [tickOutcome, hgt]
  · intro m hm
    have h2 : m + 1 ≤ T / i := hm
    have h1 : (m + 1) * i ≤ T :=
      calc (m + 1) * i ≤ (T / i) * i := Nat.mul_le_mul_right _ h2
        _ ≤ T := Nat.div_mul_le_self T i
    simp [hnever m h1]

/-- If no tick inside the budget settles the watcher, it reports `notFound`
with elapsed time `(T / i + 1) * i`, strictly past the budget. -/
theorem watcherResult_of_never (matchFn : String → String → Bool)
    (T i : Nat) (hi : 0 < i) (term : String) (log : Nat → ReadOutcome)
    (hnever : ∀ n, (n + 1) * i ≤ T → tickOutcome matchFn T i term log n = none) :
    watcherResult matchFn T i hi term log = .notFound ∧
    watcherElapsedMs matchFn T i hi term log = (T / i + 1) * i ∧
    watcherElapsedMs matchFn T i hi term log > T := by
  have hrt := resolveTick_of_never matchFn T i hi term log hnever
  have hgt : T < (T / i + 1) * i :=
    (Nat.div_lt_iff_lt_mul hi).mp (Nat.lt_succ_self (T / i))
  refine ⟨?_, ?_, ?_⟩
  · rw [watcherResult, hrt, tickOutcome, if_pos hgt]
    rfl
  · rw [watcherElapsedMs, hrt]
  · rw [watcherElapsedMs, hrt]
    exact hgt

/-- On an ever-missing log file, no poll tick inside the budget settles. -/
theorem tickOutcome_allMissing (matchFn : String → String → Bool)
    (T i : Nat) (term : String) (log : Nat → ReadOutcome)
    (hlog : ∀ n, log n = .missing) :
    ∀ n, (n + 1) * i ≤ T → tickOutcome matchFn T i term log n = none := by
  intro n hn
  rw [tickOutcome, if_neg (Nat.not_lt.mpr hn), hlog n]

/-- On a constant log whose content matches the term, the watcher settles at
its very first tick. -/
theorem resolveTick_const_match (matchFn : String → String → Bool)
    (T i : Nat) (hi : 0 < i) (c term : String) (hm : matchFn c term = true) :
    resolveTick matchFn T i hi term (fun _ => .fileContent c) = 0 := by
  rw [resolveTick, Nat.find_eq_iff]
  refine ⟨?_, ?_⟩
  · by_cases h1 : T < i <;> simp [tickOutcome, h1, hm]
  · intro m hm'
    exact absurd hm' (Nat.not_lt_zero m)

/-- On a constant matching log, a watcher whose interval fits inside the
budget resolves `found` after exactly one interval. -/
theorem watcherResult_const_match (matchFn : String → String → Bool)
    (T i : Nat) (hi : 0 < i) (c term : String) (hm : matchFn c term = true)
    (hiT : i ≤ T) :
    watcherResult matchFn T i hi term (fun _ => .fileContent c) = .found ∧
    watcherElapsedMs matchFn T i hi term (fun _ => .fileContent c) = i := by
  have h0 := resolveTick_const_match matchFn T i hi c term hm
  have hle : ¬ (0 + 1) * i > T := by
    simp only [Nat.zero_add, Nat.one_mul]
    omega
  constructor
  · rw [watcherResult, h0, tickOutcome, if_neg hle]
    simp [hm]
  · rw [watcherElapsedMs, h0]
    simp

/-- On a constant non-matching log, no tick inside the budget settles. -/
theorem tickOutcome_const_nomatch (matchFn : String → String → Bool)
    (T i : Nat) (c term : String) (hm : matchFn c term = false) :
    ∀ n, (n + 1) * i ≤ T →
      tickOutcome matchFn T i term (fun _ => .fileContent c) n = none := by
  intro n hn
  rw [tickOutcome, if_neg (Nat.not_lt.mpr hn)]
  simp [hm]

/-- Closed form of one race candidate on the fixed snapshot: a matching
term settles `found` after one 2000 ms interval, a non-matching term times
out after 32000 ms. -/
theorem raceEntry_eq (content ty term : String) :
    raceEntry content ty term =
      if logContains content term then (ty, .found, 2000)
      else (ty, .notFound, 32000) := by
  by_cases hm : logContains content term
  · obtain ⟨h1, h2⟩ := watcherResult_const_match logContains 30000 2000
      (by omega) content term hm (by omega)
    simp [raceEntry, cliCheckSettle, h1, h2, hm]
  · have hm' : logContains content term = false := by simpa using hm
    obtain ⟨h1, h2, _⟩ := watcherResult_of_never logContains 30000 2000
      (by omega) term (fun _ => .fileContent content)
      (tickOutcome_const_nomatch logContains 30000 2000 content term hm')
    norm_num at h2
    simp [raceEntry, cliCheckSettle, h1, h2, hm']

/-- On a snapshot containing both error substrings the race is won by the
first-declared candidate. -/
theorem detectFirstCLIEvent_both (c : String)
    (h1 : logContains c "Invalid user/key credentials" = true)
    (h2 : logContains c "Project not found" = true) :
    detectFirstCLIEvent c = some "InvalidCredentials" := by
  rw [detectFirstCLIEvent, errorRaceCandidates,
    raceEntry_eq c "InvalidCredentials" _, raceEntry_eq c "ProjectNotFound" _,
    raceEntry_eq c "YAMLParseError" _, raceEntry_eq c "YAMLConfigError" _,
    h1, h2]
  by_cases h3 : logContains c "Unable to parse hyperexecute.yaml" <;>
    by_cases h4 : logContains c "Invalid yaml content" <;>
      simp [h3, h4, raceWinner]

/-- C1: for every log snapshot containing both the substrings
"Invalid user/key credentials" and "Project not found", the error race
detector `detectFirstCLIEvent` deterministically returns the
higher-priority, first-declared error kind "InvalidCredentials" on every
run: the detector is a function of the snapshot alone (the event-loop
tie-break is fixed by timer creation order), and any two runs on snapshots
containing both substrings agree. -/
theorem claim_C1_race_determinism (c c' : String)
    (h1 : logContains c "Invalid user/key credentials" = true)
    (h2 : logContains c "Project not found" = true)
    (h1' : logContains c' "Invalid user/key credentials" = true)
    (h2' : logContains c' "Project not found" = true) :
    detectFirstCLIEvent c = some "InvalidCredentials" ∧
    detectFirstCLIEvent c = detectFirstCLIEvent c' := by
  have ha := detectFirstCLIEvent_both c h1 h2
  have hb := detectFirstCLIEvent_both c' h1' h2'
  exact ⟨ha, ha.trans hb.symm⟩

/-- Witness for C1 at two concrete snapshots containing both substrings. -/
theorem claim_C1_race_determinism_witness :
    detectFirstCLIEvent "Invalid user/key credentials Project not found"
      = some "InvalidCredentials" ∧
    detectFirstCLIEvent "Invalid user/key credentials Project not found" =
      detectFirstCLIEvent "x Project not found x Invalid user/key credentials" :=
  claim_C1_race_determinism _ _ (by decide) (by decide) (by decide) (by decide)

/-- The state returned by `advance` is the state carried by the body's
outcome, whether returned or thrown. -/
theorem advance_snd (env : Env) (s : ServerState) :
    (advance env s).2 = (advanceBody env s).stateOf := by
  cases h : advanceBody env s <;> simp [advance, AdvOutcome.stateOf, h]

/-- The post-loop code preserves the chain invariant (it touches only
`jobDone`). -/
theorem chainInv_afterSteps (env : Env) (s : ServerState) (h : chainInv s) :
    chainInv (afterSteps env s).stateOf := by
  obtain ⟨js, ne, us, ud, sc, jl, jd, lk⟩ := s
  cases jl <;> cases hc : env.trackStoppedChk <;>
    simp_all [afterSteps, AdvOutcome.stateOf, chainInv]

/-- Step 4 preserves the chain invariant: `jobLink` is only set while
`serverConnected` holds. -/
theorem chainInv_step4 (env : Env) (s : ServerState) (h : chainInv s) :
    chainInv (step4 env s).stateOf := by
  obtain ⟨js, ne, us, ud, sc, jl, jd, lk⟩ := s
  cases sc <;> cases jl <;> cases hc : env.jobLinkChk <;>
    simp only [step4, Bool.and_self, Bool.and_true, Bool.and_false, Bool.not_true,
      Bool.not_false, Bool.true_and, Bool.false_and, if_true, if_false,
      Bool.false_eq_true, hc, AdvOutcome.stateOf] <;>
    first
      | exact chainInv_afterSteps env _ h
      | (apply chainInv_afterSteps env _
          (by simp only [chainInv] at h ⊢; tauto))
      | (simp only [chainInv] at h ⊢; tauto)

/-- Step 3 preserves the chain invariant: `serverConnected` is only set
while `uploadDone` holds. -/
theorem chainInv_step3 (env : Env) (s : ServerState) (h : chainInv s) :
    chainInv (step3 env s).stateOf := by
  obtain ⟨js, ne, us, ud, sc, jl, jd, lk⟩ := s
  cases ud <;> cases sc <;> cases hc : env.serverConnectedChk <;>
    simp only [step3, Bool.and_self, Bool.and_true, Bool.and_false, Bool.not_true,
      Bool.not_false, Bool.true_and, Bool.false_and, if_true, if_false,
      Bool.false_eq_true, hc, AdvOutcome.stateOf] <;>
    first
      | exact chainInv_step4 env _ h
      | (apply chainInv_step4 env _
          (by simp only [chainInv] at h ⊢; tauto))
      | (simp only [chainInv] at h ⊢; tauto)

/-- Step 2 preserves the chain invariant: `uploadDone` is only set while
`uploadStarted` holds. -/
theorem chainInv_step2 (env : Env) (s : ServerState) (h : chainInv s) :
    chainInv (step2 env s).stateOf := by
  obtain ⟨js, ne, us, ud, sc, jl, jd, lk⟩ := s
  cases us <;> cases ud <;> cases hc : env.uploadDoneChk <;>
    simp only [step2, Bool.and_self, Bool.and_true, Bool.and_false, Bool.not_true,
      Bool.not_false, Bool.true_and, Bool.false_and, if_true, if_false,
      Bool.false_eq_true, hc, AdvOutcome.stateOf] <;>
    first
      | exact chainInv_step3 env _ h
      | (apply chainInv_step3 env _
          (by simp only [chainInv] at h ⊢; tauto))
      | (simp only [chainInv] at h ⊢; tauto)

/-- Step 1 preserves the chain invariant, provided the loop was reached in
a state with `jobStarted` and `noError` (which is how `advanceBody` reaches
it). -/
theorem chainInv_step1 (env : Env) (s : ServerState) (h : chainInv s)
    (hjs : s.jobStarted = true) (hne : s.noError = true) :
    chainInv (step1 env s).stateOf := by
  obtain ⟨js, ne, us, ud, sc, jl, jd, lk⟩ := s
  cases hjs
  cases hne
  cases us <;> cases hc : env.uploadStartedChk <;>
    simp only [step1, Bool.not_true, Bool.not_false, if_true, if_false,
      Bool.false_eq_true, hc, AdvOutcome.stateOf] <;>
    first
      | exact chainInv_step2 env _ h
      | (apply chainInv_step2 env _
          (by simp only [chainInv] at h ⊢; tauto))
      | (simp only [chainInv] at h ⊢; tauto)

/-- The job-steps loop preserves the chain invariant under the same
precondition. -/
theorem chainInv_jobStepsLoop (env : Env) (s : ServerState) (h : chainInv s)
    (hjs : s.jobStarted = true) (hne : s.noError = true) :
    chainInv (jobStepsLoop env s).stateOf := by
  rw [jobStepsLoop]
  split_ifs with h1
  · exact chainInv_step1 env s h hjs hne
  · exact chainInv_afterSteps env s h

/-- The error-detector switch preserves the chain invariant (it can only
set `noError`). -/
theorem chainInv_errorSwitch (env : Env) (s : ServerState) (h : chainInv s) :
    chainInv (errorSwitch env s).stateOf := by
  rw [errorSwitch]
  split <;>
    first
      | exact h
      | (simp only [AdvOutcome.stateOf, chainInv] at h ⊢; tauto)

/-- One `advance` call preserves the chain invariant, for every
environment. -/
theorem chainInv_advance (env : Env) (s : ServerState) (h : chainInv s) :
    chainInv (advance env s).2 := by
  rw [advance_snd, advanceBody]
  split_ifs with h1 h2 h3
  · simp only [AdvOutcome.stateOf]
    simp only [chainInv] at h ⊢
    simp only [h1] at h
    tauto
  · simp only [AdvOutcome.stateOf]
    simp only [chainInv] at h ⊢
    simp only [h1] at h
    tauto
  · exact chainInv_errorSwitch env s h
  · exact chainInv_jobStepsLoop env s h (by
      cases hjs : s.jobStarted
      · exact absurd hjs h1
      · rfl) (by
      cases hne : s.noError
      · exact absurd hne h3
      · rfl)

/-- Monotonicity steps compose (over the same environment). -/
theorem monoStep_trans {env : Env} {a b c : ServerState}
    (h1 : monoStep env a b) (h2 : monoStep env b c) : monoStep env a c := by
  obtain ⟨⟨f1, f2, f3, f4, f5, f6⟩, fd⟩ := h1
  obtain ⟨⟨g1, g2, g3, g4, g5, g6⟩, gd⟩ := h2
  exact ⟨⟨fun h => g1 (f1 h), fun h => g2 (f2 h), fun h => g3 (f3 h),
    fun h => g4 (f4 h), fun h => g5 (f5 h), fun h => g6 (f6 h)⟩,
    fun h hc => gd (fd h hc) hc⟩

/-- The post-loop code is a monotone step: it writes only `jobDone`, with
the termination-check outcome. -/
theorem monoStep_afterSteps (env : Env) (s : ServerState) :
    monoStep env s (afterSteps env s).stateOf := by
  obtain ⟨js, ne, us, ud, sc, jl, jd, lk⟩ := s
  cases jl <;> cases hc : env.trackStoppedChk <;>
    simp_all [afterSteps, AdvOutcome.stateOf, monoStep, flagsMono]

/-- Step 4 is a monotone step. -/
theorem monoStep_step4 (env : Env) (s : ServerState) :
    monoStep env s (step4 env s).stateOf := by
  obtain ⟨js, ne, us, ud, sc, jl, jd, lk⟩ := s
  cases sc <;> cases jl <;> cases hc : env.jobLinkChk <;>
    simp only [step4, Bool.and_self, Bool.and_true, Bool.and_false, Bool.not_true,
      Bool.not_false, Bool.true_and, Bool.false_and, if_true, if_false,
      Bool.false_eq_true, hc, AdvOutcome.stateOf] <;>
    first
      | exact monoStep_afterSteps env _
      | simp_all [monoStep, flagsMono]

/-- Step 3 is a monotone step. -/
theorem monoStep_step3 (env : Env) (s : ServerState) :
    monoStep env s (step3 env s).stateOf := by
  obtain ⟨js, ne, us, ud, sc, jl, jd, lk⟩ := s
  cases ud <;> cases sc <;> cases hc : env.serverConnectedChk <;>
    simp only [step3, Bool.and_self, Bool.and_true, Bool.and_false, Bool.not_true,
      Bool.not_false, Bool.true_and, Bool.false_and, if_true, if_false,
      Bool.false_eq_true, hc, AdvOutcome.stateOf] <;>
    first
      | exact monoStep_step4 env _
      | simp_all [monoStep, flagsMono]

/-- Step 2 is a monotone step. -/
theorem monoStep_step2 (env : Env) (s : ServerState) :
    monoStep env s (step2 env s).stateOf := by
  obtain ⟨js, ne, us, ud, sc, jl, jd, lk⟩ := s
  cases us <;> cases ud <;> cases hc : env.uploadDoneChk <;>
    simp only [step2, Bool.and_self, Bool.and_true, Bool.and_false, Bool.not_true,
      Bool.not_false, Bool.true_and, Bool.false_and, if_true, if_false,
      Bool.false_eq_true, hc, AdvOutcome.stateOf] <;>
    first
      | exact monoStep_step3 env _
      | simp_all [monoStep, flagsMono]

/-- Step 1 is a monotone step. -/
theorem monoStep_step1 (env : Env) (s : ServerState) :
    monoStep env s (step1 env s).stateOf := by
  obtain ⟨js, ne, us, ud, sc, jl, jd, lk⟩ := s
  cases us <;> cases hc : env.uploadStartedChk <;>
    simp only [step1, Bool.not_true, Bool.not_false, if_true, if_false,
      Bool.false_eq_true, hc, AdvOutcome.stateOf] <;>
    first
      | exact monoStep_step2 env _
      | simp_all [monoStep, flagsMono]

/-- The job-steps loop is a monotone step. -/
theorem monoStep_jobStepsLoop (env : Env) (s : ServerState) :
    monoStep env s (jobStepsLoop env s).stateOf := by
  rw [jobStepsLoop]
  split_ifs
  · exact monoStep_step1 env s
  · exact monoStep_afterSteps env s

/-- The error-detector switch is a monotone step (it can only set
`noError`). -/
theorem monoStep_errorSwitch (env : Env) (s : ServerState) :
    monoStep env s (errorSwitch env s).stateOf := by
  rw [errorSwitch]
  split <;>
    exact ⟨by simp [AdvOutcome.stateOf, flagsMono],
      fun h _ => by simpa [AdvOutcome.stateOf] using h⟩

/-- The whole `try` body is a monotone step. -/
theorem monoStep_advanceBody (env : Env) (s : ServerState) :
    monoStep env s (advanceBody env s).stateOf := by
  rw [advanceBody]
  split_ifs with h1 h2 h3
  · exact ⟨by simp [AdvOutcome.stateOf, flagsMono, h1, h2],
      fun h _ => by simpa [AdvOutcome.stateOf] using h⟩
  · exact ⟨by simp [AdvOutcome.stateOf, flagsMono, h1],
      fun h _ => by simpa [AdvOutcome.stateOf] using h⟩
  · exact monoStep_errorSwitch env s
  · exact monoStep_jobStepsLoop env s

/-- The post-loop code can only throw the termination error. -/
theorem afterSteps_thrown {env : Env} {s : ServerState} {e : String}
    {s' : ServerState} (h : afterSteps env s = .thrown e s') :
    e = errTerminated := by
  rw [afterSteps] at h
  split_ifs at h <;> simp_all

/-- Step 4 can only throw the termination error. -/
theorem step4_thrown {env : Env} {s : ServerState} {e : String}
    {s' : ServerState} (h : step4 env s = .thrown e s') : e = errTerminated := by
  rw [step4] at h
  split_ifs at h <;> first | exact afterSteps_thrown h | simp_all

/-- Step 3 can only throw the termination error. -/
theorem step3_thrown {env : Env} {s : ServerState} {e : String}
    {s' : ServerState} (h : step3 env s = .thrown e s') : e = errTerminated := by
  rw [step3] at h
  split_ifs at h <;> first | exact step4_thrown h | simp_all

/-- Step 2 can only throw the termination error. -/
theorem step2_thrown {env : Env} {s : ServerState} {e : String}
    {s' : ServerState} (h : step2 env s = .thrown e s') : e = errTerminated := by
  rw [step2] at h
  split_ifs at h <;> first | exact step3_thrown h | simp_all

/-- Step 1 can only throw the termination error. -/
theorem step1_thrown {env : Env} {s : ServerState} {e : String}
    {s' : ServerState} (h : step1 env s = .thrown e s') : e = errTerminated := by
  rw [step1] at h
  split_ifs at h <;> first | exact step2_thrown h | simp_all

/-- The job-steps loop can only throw the termination error. -/
theorem jobStepsLoop_thrown {env : Env} {s : ServerState} {e : String}
    {s' : ServerState} (h : jobStepsLoop env s = .thrown e s') :
    e = errTerminated := by
  rw [jobStepsLoop] at h
  split_ifs at h
  · exact step1_thrown h
  · exact afterSteps_thrown h

/-- The error-detector switch never throws. -/
theorem errorSwitch_not_thrown {env : Env} {s : ServerState} {e : String}
    {s' : ServerState} (h : errorSwitch env s = .thrown e s') : False := by
  rw [errorSwitch] at h
  split at h <;> simp_all

/-- Every error the `try` body can throw is one of the two deliberate
`throw new Error` sites. -/
theorem advanceBody_thrown {env : Env} {s : ServerState} {e : String}
    {s' : ServerState} (h : advanceBody env s = .thrown e s') :
    e = errNotStarted ∨ e = errTerminated := by
  rw [advanceBody] at h
  by_cases h1 : s.jobStarted = false
  · rw [if_pos h1] at h
    by_cases h2 : env.triggered = true
    · rw [if_pos h2] at h
      exact absurd h (by simp)
    · rw [if_neg h2] at h
      injection h with he hs
      exact Or.inl he.symm
  · rw [if_neg h1] at h
    by_cases h3 : s.noError = false
    · rw [if_pos h3] at h
      exact (errorSwitch_not_thrown h).elim
    · rw [if_neg h3] at h
      exact Or.inr (jobStepsLoop_thrown h)

/-- In a reachable state where the job link has been found, `advance` is a
fixpoint returning the cached link message, for every environment. -/
theorem advance_fix_of_linkFound (env : Env) (s : ServerState)
    (hinv : chainInv s) (hjl : s.jobLink = true) :
    advance env s = (linkMsg s.jobExecutionLink, s) := by
  obtain ⟨hc1, hc2, hc3, hc4⟩ := hinv
  have hsc := hc4 hjl
  have hud := hc3 hsc
  have hus := hc2 hud
  obtain ⟨hjs, hne⟩ := hc1 hus
  have hbody : advanceBody env s = jobStepsLoop env s := by
    rw [advanceBody, if_neg (by simp [hjs]), if_neg (by simp [hne])]
  rw [advance, hbody, jobStepsLoop]
  cases hjd : s.jobDone
  · rw [if_pos (by simp [hjs, hjd]), step1, if_neg (by simp [hus]), step2,
      if_neg (by simp [hud]), step3, if_neg (by simp [hsc]), step4,
      if_neg (by simp [hjl]), afterSteps, if_neg (by simp [hjl])]
  · rw [if_neg (by simp [hjd]), afterSteps, if_neg (by simp [hjl])]

/-- C2 counterexample: in the active `waitForLogMessage`
(`src/server/tools/cli-log.ts` lines 32-35), a log file that is missing
when the watcher starts makes `findFileAbsolutePath` return `null` and the
watcher returns `Promise.resolve(false)` immediately: with a 30000 ms
budget and a term that never appears it reports "not found" at elapsed
time 0, before the budget has elapsed — refuting the claim that polling
continues until the timeout when the file is missing at start. -/
theorem claim_C2_counterexample :
    waitForLogMessage false 30000 1000 (by omega) "Job Link"
        (fun _ => ReadOutcome.missing) = (.notFound, 0) ∧ (0 : Nat) < 30000 :=
  ⟨rfl, by omega⟩

/-- C2 (amended): once polling has started (the log path was resolvable at
start), a watcher with budget `T` never reports "not found" before more
than `T` ms of wall-clock time — in both the active and the legacy
implementation; a file missing at an individual poll tick is treated as
"not yet found" and polling continues until the first tick past the
budget; but the active implementation returns "not found" immediately
(elapsed 0) when the log file is not found when the watcher starts. -/
theorem claim_C2_timeout_lower_bound (T i : Nat) (hi : 0 < i) (term : String)
    (log : Nat → ReadOutcome) :
    ((waitForLogMessage true T i hi term log).1 = .notFound →
      (waitForLogMessage true T i hi term log).2 > T) ∧
    ((waitForLogMessageLegacy T i hi term log).1 = .notFound →
      (waitForLogMessageLegacy T i hi term log).2 > T) ∧
    ((∀ n, log n = .missing) →
      waitForLogMessage true T i hi term log = (.notFound, (T / i + 1) * i) ∧
      (T / i + 1) * i > T) ∧
    waitForLogMessage false T i hi term log = (.notFound, 0) := by
  refine ⟨?_, ?_, ?_, rfl⟩
  · exact fun h => watcherResult_notFound_gt logContains T i hi term log h
  · exact fun h => watcherResult_notFound_gt logContainsCS T i hi term log h
  · intro hmiss
    obtain ⟨h1, h2, h3⟩ := watcherResult_of_never logContains T i hi term log
      (tickOutcome_allMissing logContains T i term log hmiss)
    rw [h2] at h3
    exact ⟨by rw [waitForLogMessage]; rw [h1, h2], h3⟩

/-- Witness for C2 (amended) at a concrete budget and an ever-missing log. -/
theorem claim_C2_timeout_lower_bound_witness :
    waitForLogMessage true 5 2 (by omega) "Job Link"
        (fun _ => ReadOutcome.missing) = (.notFound, 6) ∧
    waitForLogMessage false 5 2 (by omega) "Job Link"
        (fun _ => ReadOutcome.missing) = (.notFound, 0) := by
  have h := claim_C2_timeout_lower_bound 5 2 (by omega) "Job Link"
    (fun _ => ReadOutcome.missing)
  refine ⟨?_, h.2.2.2⟩
  have h3 := (h.2.2.1 (fun n => rfl)).1
  norm_num at h3
  exact h3

/-- C3 counterexample: in the TRIGGERED-but-not-ERROR_CLEARED state, when
the detector yields no event, the call sets `noError` and returns the
no-error message immediately — it does not fall through to upload-milestone
polling within the same call: with an environment whose upload-started
check would succeed, `uploadStarted` is still false after the call and the
returned message is not the upload message. -/
theorem claim_C3_counterexample :
    advance ⟨false, none, true, false, false, false, false, ""⟩
        ⟨true, false, false, false, false, false, false, ""⟩ =
      (msgNoError, ⟨true, true, false, false, false, false, false, ""⟩) ∧
    msgNoError ≠ msgUploadStarted := by
  refine ⟨by decide, by decide⟩

/-- C3 (amended): on an `advance` call in the TRIGGERED-but-not-ERROR_CLEARED
state, a non-None detector result returns that kind's remediation message
and leaves every run flag unchanged (`noError` stays false); otherwise the
call sets `noError` and returns the no-error message — upload-milestone
polling begins only on the next call. -/
theorem claim_C3_error_gate (env : Env) (s : ServerState)
    (hjs : s.jobStarted = true) (hne : s.noError = false) :
    (env.firstEvent = some "InvalidCredentials" →
      advance env s = (msgInvalidCredentials, s)) ∧
    (env.firstEvent = some "ProjectNotFound" →
      advance env s = (msgProjectNotFound, s)) ∧
    (env.firstEvent = some "YAMLParseError" →
      advance env s = (msgYamlParse, s)) ∧
    (env.firstEvent = some "YAMLConfigError" →
      advance env s = (msgYamlConfig, s)) ∧
    (env.firstEvent = none →
      advance env s = (msgNoError, { s with noError := true })) := by
  have hbody : advanceBody env s = errorSwitch env s := by
    rw [advanceBody, if_neg (by simp [hjs]), if_pos hne]
  refine ⟨?_, ?_, ?_, ?_, ?_⟩ <;> intro hev <;>
    rw [advance, hbody, errorSwitch, hev] <;> rfl

/-- Witness for C3 (amended): a detected InvalidCredentials event returns
its remediation message with the state untouched. -/
theorem claim_C3_error_gate_witness :
    advance ⟨false, some "InvalidCredentials", true, true, true, true, true, ""⟩
        ⟨true, false, false, false, false, false, false, ""⟩ =
      (msgInvalidCredentials, ⟨true, false, false, false, false, false, false, ""⟩) :=
  (claim_C3_error_gate _ _ rfl rfl).1 rfl

/-- C4 counterexample: the precondition violation (calling `advance` before
any run has triggered a job) does not escape as an unhandled exception —
the tool-level catch converts it to a returned message string, so there is
no case in which `advance` throws. -/
theorem claim_C4_counterexample :
    advance ⟨false, none, false, false, false, false, false, ""⟩ freshState =
      (catchMsg errNotStarted, freshState) ∧
    advanceBody ⟨false, none, false, false, false, false, false, ""⟩ freshState =
      .thrown errNotStarted freshState := by
  refine ⟨by decide, by decide⟩

/-- C4 (amended): for every reachable tracker state and every environment,
`advance` returns a message string and never lets an exception escape:
every error the body can throw is one of the two deliberate `throw` sites
(the not-started precondition and the terminated-without-link error), and
each is converted by the catch-all into the catch message with the mutated
state; every non-throwing path returns its message unchanged. -/
theorem claim_C4_no_unhandled (env : Env) (s : ServerState) :
    (∀ e s', advanceBody env s = .thrown e s' →
      (e = errNotStarted ∨ e = errTerminated) ∧
      advance env s = (catchMsg e, s')) ∧
    (∀ m s', advanceBody env s = .ret m s' → advance env s = (m, s')) := by
  constructor
  · intro e s' h
    refine ⟨advanceBody_thrown h, ?_⟩
    rw [advance, h]
  · intro m s' h
    rw [advance, h]

/-- Witness for C4 (amended): the precondition violation is caught and
returned as the catch message. -/
theorem claim_C4_no_unhandled_witness :
    advance ⟨false, none, false, false, false, false, false, "w"⟩ freshState =
      (catchMsg errNotStarted, freshState) :=
  ((claim_C4_no_unhandled _ _).1 errNotStarted freshState (by decide)).2

/-- C5 counterexample: `jobDone` is not monotone within a run.  Starting
from a fresh run: call 1 triggers the job, call 2 clears errors, call 3
(no step check succeeds, termination check succeeds) sets `jobDone := true`
and reports the termination failure, call 4 (termination check fails, e.g.
the log file disappeared) re-assigns `jobDone := false` — a true→false
transition without any intervening `run()`. -/
theorem claim_C5_counterexample :
    ((advance ⟨false, none, false, false, false, false, true, ""⟩
        ((advance ⟨false, none, false, false, false, false, false, ""⟩
          ((advance ⟨true, none, false, false, false, false, false, ""⟩
            freshState).2)).2)).2).jobDone = true ∧
    ((advance ⟨false, none, false, false, false, false, false, ""⟩
        ((advance ⟨false, none, false, false, false, false, true, ""⟩
          ((advance ⟨false, none, false, false, false, false, false, ""⟩
            ((advance ⟨true, none, false, false, false, false, false, ""⟩
              freshState).2)).2)).2)).2).jobDone = false := by
  refine ⟨by decide, by decide⟩

/-- C5 (amended): across every `advance` call, the six flags `jobStarted`,
`noError`, `uploadStarted`, `uploadDone`, `serverConnected`, `jobLink`
transition only from false to true; `jobDone` is also monotone provided
the termination check still succeeds on the call (which an append-only log
guarantees once "goroutines have finished" has appeared), but it is
re-assigned on every call made while `jobLink` is false and can revert if
that check fails. -/
theorem claim_C5_flag_monotonicity (env : Env) (s : ServerState) :
    monoStep env s (advance env s).2 := by
  rw [advance_snd]
  exact monoStep_advanceBody env s

/-- Witness for C5 (amended): at a concrete state with `uploadStarted`
true, the flag survives an `advance` call. -/
theorem claim_C5_flag_monotonicity_witness :
    ((advance ⟨false, none, false, true, false, false, false, ""⟩
        ⟨true, true, true, false, false, false, false, ""⟩).2).uploadStarted = true :=
  (claim_C5_flag_monotonicity
    ⟨false, none, false, true, false, false, false, ""⟩
    ⟨true, true, true, false, false, false, false, ""⟩).1.2.2.1 rfl

/-- C6: once the `jobLink` flag is true (in a reachable state, where the
chain invariant holds), every subsequent `advance` call returns the
identical cached job-link message built from the stored `jobExecutionLink`
and leaves the state unchanged; the result does not depend on the
environment — no log check influences it. -/
theorem claim_C6_link_idempotent (env env' : Env) (s : ServerState)
    (hinv : chainInv s) (hjl : s.jobLink = true) :
    advance env s = (linkMsg s.jobExecutionLink, s) ∧
    advance env s = advance env' s := by
  have ha := advance_fix_of_linkFound env s hinv hjl
  have hb := advance_fix_of_linkFound env' s hinv hjl
  exact ⟨ha, ha.trans hb.symm⟩

/-- Witness for C6 at a concrete link-found state and two environments. -/
theorem claim_C6_link_idempotent_witness :
    advance ⟨true, some "InvalidCredentials", true, true, true, true, true, "zzz"⟩
        ⟨true, true, true, true, true, true, false, "https://w"⟩ =
      (linkMsg "https://w",
        ⟨true, true, true, true, true, true, false, "https://w"⟩) ∧
    advance ⟨true, some "InvalidCredentials", true, true, true, true, true, "zzz"⟩
        ⟨true, true, true, true, true, true, false, "https://w"⟩ =
      advance ⟨false, none, false, false, false, false, false, ""⟩
        ⟨true, true, true, true, true, true, false, "https://w"⟩ :=
  claim_C6_link_idempotent _ _ _ (by decide) rfl

/-- A consumed literal is a prefix of the input. -/
theorem dropLiteral_append : ∀ (p l r : List Char),
    dropLiteral p l = some r → l = p ++ r := by
  intro p
  induction p with
  | nil =>
    intro l r h
    rw [dropLiteral] at h
    cases h
    rfl
  | cons x xs ih =>
    intro l r h
    cases l with
    | nil => exact absurd h (by simp [dropLiteral])
    | cons c cs =>
      rw [dropLiteral] at h
      by_cases hc : c == x
      · rw [if_pos hc] at h
        have hcx : c = x := by simpa using hc
        subst hcx
        rw [List.cons_append, ← ih cs r h]
      · rw [if_neg hc] at h
        exact absurd h (by simp)

/-- `takeWhile` walks through a block that satisfies the predicate. -/
theorem takeWhile_append_all {p : Char → Bool} (l1 l2 : List Char)
    (h : ∀ c ∈ l1, p c = true) :
    (l1 ++ l2).takeWhile p = l1 ++ l2.takeWhile p := by
  induction l1 with
  | nil => simp
  | cons c cs ih =>
    have hc := h c (List.mem_cons_self c cs)
    simp only [List.cons_append, List.takeWhile_cons, hc, if_true]
    rw [ih (fun x hx => h x (List.mem_cons_of_mem c hx))]

/-- A parameter block of digits and semicolons followed by `m` is consumed
as one ANSI tail. -/
theorem ansiSeq_params : ∀ (params rest : List Char),
    (∀ c ∈ params, (c.isDigit || (c == ';')) = true) →
    ansiSeq (params ++ 'm' :: rest) = some rest := by
  intro params
  induction params with
  | nil =>
    intro rest _
    simp [ansiSeq]
  | cons c cs ih =>
    intro rest h
    have hc := h c (List.mem_cons_self c cs)
    have hcm : (c == 'm') = false := by
      by_cases hm : c == 'm'
      · have hcm' : c = 'm' := by simpa using hm
        rw [hcm'] at hc
        exact absurd hc (by decide)
      · simpa using hm
    simp only [List.cons_append, ansiSeq, hcm, if_false, hc, if_true,
      Bool.false_eq_true]
    exact ih rest (fun x hx => h x (List.mem_cons_of_mem c hx))

/-- The scanner maps the empty list to itself at every fuel. -/
theorem stripAnsiGo_nil (f : Nat) : stripAnsiGo f [] = [] := by
  cases f <;> rfl

/-- Any two sufficient fuels give the scanner the same value: each step
consumes at least one character. -/
theorem stripAnsiGo_fuel : ∀ (n : Nat) (l : List Char) (f₁ f₂ : Nat),
    l.length ≤ n → l.length ≤ f₁ → l.length ≤ f₂ →
    stripAnsiGo f₁ l = stripAnsiGo f₂ l := by
  intro n
  induction n with
  | zero =>
    intro l f₁ f₂ hn _ _
    have hl : l = [] := List.length_eq_zero.mp (Nat.le_zero.mp hn)
    subst hl
    rw [stripAnsiGo_nil, stripAnsiGo_nil]
  | succ n ih =>
    intro l f₁ f₂ hn h1 h2
    cases l with
    | nil => rw [stripAnsiGo_nil, stripAnsiGo_nil]
    | cons c cs =>
      simp only [List.length_cons] at hn h1 h2
      cases f₁ with
      | zero => omega
      | succ g₁ =>
        cases f₂ with
        | zero => omega
        | succ g₂ =>
          simp only [stripAnsiGo]
          by_cases hcond : c = '\x1b' ∧ cs.head? = some '['
          · rw [if_pos hcond, if_pos hcond]
            cases hseq : ansiSeq cs.tail with
            | some rest =>
              have hlt : rest.length < cs.tail.length := ansiSeq_shrinks _ _ hseq
              have htl : cs.tail.length ≤ cs.length := by
                cases cs <;> simp
              exact ih rest g₁ g₂ (by omega) (by omega) (by omega)
            | none =>
              rw [ih cs g₁ g₂ (by omega) (by omega) (by omega)]
          · rw [if_neg hcond, if_neg hcond]
            rw [ih cs g₁ g₂ (by omega) (by omega) (by omega)]

/-- Any sufficient fuel computes `stripAnsi`. -/
theorem stripAnsiGo_eq_stripAnsi (f : Nat) (l : List Char)
    (h : l.length ≤ f) : stripAnsiGo f l = stripAnsi l :=
  stripAnsiGo_fuel l.length l f l.length (Nat.le_refl _) h (Nat.le_refl _)

/-- `stripAnsi` removes a complete ANSI escape sequence at the head of the
input and continues after it. -/
theorem stripAnsi_removes (params rest : List Char)
    (h : ∀ c ∈ params, (c.isDigit || (c == ';')) = true) :
    stripAnsi ('\x1b' :: '[' :: (params ++ 'm' :: rest)) = stripAnsi rest := by
  rw [stripAnsi]
  simp only [List.length_cons, stripAnsiGo]
  rw [if_pos (by simp)]
  simp only [List.tail_cons]
  rw [ansiSeq_params params rest h]
  apply stripAnsiGo_eq_stripAnsi
  simp only [List.length_append, List.length_cons]
  omega

/-- Every URL produced by `matchLinkAt` is nonempty, free of whitespace,
and begins with an HTTP or HTTPS scheme. -/
theorem matchLinkAt_shape {l : List Char} {u : String}
    (h : matchLinkAt l = some u) :
    u.data ≠ [] ∧ (∀ c ∈ u.data, isSpaceJS c = false) ∧
    ("https://".data.isPrefixOf u.data = true ∨
      "http://".data.isPrefixOf u.data = true) := by
  rw [matchLinkAt] at h
  cases hd : dropLiteral "Job Link:".data l with
  | none => rw [hd] at h; exact absurd h (by simp)
  | some rest =>
    rw [hd] at h
    simp only at h
    by_cases hps : "https://".data.isPrefixOf
        (rest.dropWhile fun c => isSpaceJS c) = true
    · rw [if_pos (by rw [hps]; simp)] at h
      by_cases he : (((rest.dropWhile fun c => isSpaceJS c).drop
            (if "https://".data.isPrefixOf
              (rest.dropWhile fun c => isSpaceJS c) = true then 8 else 7)).takeWhile
            fun c => !(isSpaceJS c)).isEmpty = true
      · rw [if_pos he] at h
        exact absurd h (by simp)
      · rw [if_neg he] at h
        have hu : u.data = (rest.dropWhile fun c => isSpaceJS c).takeWhile
            (fun c => !(isSpaceJS c)) := by
          have := (Option.some.injEq _ _).mp h
          rw [← this]
        obtain ⟨t, ht⟩ := List.isPrefixOf_iff_prefix.mp hps
        have hall : ∀ c ∈ "https://".data, (!(isSpaceJS c)) = true := by decide
        have htw : (rest.dropWhile fun c => isSpaceJS c).takeWhile
            (fun c => !(isSpaceJS c)) =
            "https://".data ++ t.takeWhile (fun c => !(isSpaceJS c)) := by
          rw [← ht, takeWhile_append_all _ _ hall]
        refine ⟨?_, ?_, Or.inl ?_⟩
        · rw [hu, htw]; simp
        · intro c hc
          rw [hu] at hc
          have := List.mem_takeWhile_imp hc
          simpa using this
        · rw [hu, htw]
          exact List.isPrefixOf_iff_prefix.mpr ⟨_, rfl⟩
    · by_cases hph : "http://".data.isPrefixOf
          (rest.dropWhile fun c => isSpaceJS c) = true
      · rw [if_pos (by rw [hph]; simp)] at h
        by_cases he : (((rest.dropWhile fun c => isSpaceJS c).drop
              (if "https://".data.isPrefixOf
                (rest.dropWhile fun c => isSpaceJS c) = true then 8 else 7)).takeWhile
              fun c => !(isSpaceJS c)).isEmpty = true
        · rw [if_pos he] at h
          exact absurd h (by simp)
        · rw [if_neg he] at h
          have hu : u.data = (rest.dropWhile fun c => isSpaceJS c).takeWhile
              (fun c => !(isSpaceJS c)) := by
            have := (Option.some.injEq _ _).mp h
            rw [← this]
          obtain ⟨t, ht⟩ := List.isPrefixOf_iff_prefix.mp hph
          have hall : ∀ c ∈ "http://".data, (!(isSpaceJS c)) = true := by decide
          have htw : (rest.dropWhile fun c => isSpaceJS c).takeWhile
              (fun c => !(isSpaceJS c)) =
              "http://".data ++ t.takeWhile (fun c => !(isSpaceJS c)) := by
            rw [← ht, takeWhile_append_all _ _ hall]
          refine ⟨?_, ?_, Or.inr ?_⟩
          · rw [hu, htw]; simp
          · intro c hc
            rw [hu] at hc
            have := List.mem_takeWhile_imp hc
            simpa using this
          · rw [hu, htw]
            exact List.isPrefixOf_iff_prefix.mpr ⟨_, rfl⟩
      · rw [if_neg (by simp [hps, hph])] at h
        exact absurd h (by simp)

/-- A successful scan is the leftmost position at which the pattern
matches: all earlier positions fail. -/
theorem findLink_leftmost : ∀ (l : List Char) (u : String),
    findLink l = some u →
    ∃ k, matchLinkAt (l.drop k) = some u ∧
      ∀ m < k, matchLinkAt (l.drop m) = none := by
  intro l
  induction l with
  | nil => intro u h; simp [findLink] at h
  | cons c t ih =>
    intro u h
    rw [findLink] at h
    cases hm : matchLinkAt (c :: t) with
    | some u' =>
      rw [hm] at h
      cases h
      exact ⟨0, by simpa using hm, fun m hm' => absurd hm' (Nat.not_lt_zero m)⟩
    | none =>
      rw [hm] at h
      obtain ⟨k, hk1, hk2⟩ := ih u h
      refine ⟨k + 1, by simpa using hk1, ?_⟩
      intro m hmk
      cases m with
      | zero => simpa using hm
      | succ m' =>
        have := hk2 m' (by omega)
        simpa using this

/-- C7: `getJobLink` strips ANSI escape sequences (`ESC '[' [0-9;]* 'm'`)
from the file content, then returns the first (leftmost) capture of
`Job Link:\s*(https?:\/\/\S+)` over the whole snapshot; the capture is a
nonempty whitespace-free string starting with an HTTP(S) scheme; when no
match exists, or any I/O failure occurred (modelled by `none`), it returns
the sentinel string and never throws. -/
theorem claim_C7_jobLink_extractor :
    getJobLink none = jobLinkSentinel ∧
    (∀ params rest, (∀ c ∈ params, (c.isDigit || (c == ';')) = true) →
      stripAnsi ('\x1b' :: '[' :: (params ++ 'm' :: rest)) = stripAnsi rest) ∧
    (∀ content, findLink (stripAnsi content.data) = none →
      getJobLink (some content) = jobLinkSentinel) ∧
    (∀ content u, findLink (stripAnsi content.data) = some u →
      getJobLink (some content) = u) ∧
    (∀ content u, getJobLink (some content) = u → u ≠ jobLinkSentinel →
      ∃ k, matchLinkAt ((stripAnsi content.data).drop k) = some u ∧
        (∀ m < k, matchLinkAt ((stripAnsi content.data).drop m) = none) ∧
        u.data ≠ [] ∧ (∀ c ∈ u.data, isSpaceJS c = false) ∧
        ("https://".data.isPrefixOf u.data = true ∨
          "http://".data.isPrefixOf u.data = true)) := by
  refine ⟨rfl, stripAnsi_removes, ?_, ?_, ?_⟩
  · intro content hf
    rw [getJobLink, hf]
  · intro content u hf
    rw [getJobLink, hf]
  · intro content u hu hne
    cases hf : findLink (stripAnsi content.data) with
    | none =>
      rw [getJobLink, hf] at hu
      exact absurd hu.symm hne
    | some u' =>
      rw [getJobLink, hf] at hu
      cases hu
      obtain ⟨k, hk1, hk2⟩ := findLink_leftmost _ _ hf
      obtain ⟨hs1, hs2, hs3⟩ := matchLinkAt_shape hk1
      exact ⟨k, hk1, hk2, hs1, hs2, hs3⟩

/-- Witness for C7: sentinel on a missing file, extraction of a concrete
ANSI-free link, sentinel on a snapshot without a link. -/
theorem claim_C7_jobLink_extractor_witness :
    getJobLink none = jobLinkSentinel ∧
    getJobLink (some "ok Job Link: https://a.b end") = "https://a.b" ∧
    getJobLink (some "no link") = jobLinkSentinel := by
  obtain ⟨h1, _, h3, h4, _⟩ := claim_C7_jobLink_extractor
  exact ⟨h1, h4 _ _ (by decide), h3 _ (by decide)⟩

/-- C8 counterexample: the legacy matcher (`src/cli-log.ts` line 30,
`contents.includes(searchString)`) is case-sensitive: changing only the
letter case of the search term changes its verdict, refuting the claim for
that cited implementation. -/
theorem claim_C8_counterexample :
    caseEquiv "abc" "ABC" ∧
    logContainsCS "xABCx" "ABC" = true ∧
    logContainsCS "xABCx" "abc" = false := by
  refine ⟨by decide, by decide, by decide⟩

/-- C8 (amended): the active milestone matcher
(`src/server/tools/cli-log.ts` line 49) is a pure case-insensitive
substring test: its verdict is unchanged under any change of letter case
in either the snapshot or the term; the legacy matcher in `src/cli-log.ts`
is case-sensitive and does not have this property. -/
theorem claim_C8_case_insensitive (c c' t t' : String)
    (hc : caseEquiv c c') (ht : caseEquiv t t') :
    logContains c t = logContains c' t' := by
  unfold caseEquiv at hc ht
  rw [logContains, logContains, hc, ht]

/-- Witness for C8 (amended) at concrete case-variant snapshots and terms. -/
theorem claim_C8_case_insensitive_witness :
    logContains "Generating TraceID" "generating traceid" =
      logContains "GENERATING TRACEid" "Generating TRACEID" :=
  claim_C8_case_insensitive _ _ _ _ (by decide) (by decide)

/-- C9: when the link-found step succeeds, the tracker caches whatever
`getJobLink` returns at that instant; if URL extraction fails at that
moment (the stripped snapshot has no match), the cached value is the
sentinel string, embedded in the returned message, and every later
`advance` call returns the same sentinel-bearing message. -/
theorem claim_C9_sentinel_cache (env : Env) (s : ServerState) (content : String)
    (hinv : chainInv s) (hsc : s.serverConnected = true)
    (hjl : s.jobLink = false) (hjd : s.jobDone = false)
    (hchk : env.jobLinkChk = true)
    (hval : env.jobLinkValue = getJobLink (some content))
    (hfail : findLink (stripAnsi content.data) = none) :
    advance env s = (linkMsg jobLinkSentinel,
      { s with jobLink := true, jobExecutionLink := jobLinkSentinel }) ∧
    (∀ env' : Env,
      advance env' { s with jobLink := true, jobExecutionLink := jobLinkSentinel } =
        (linkMsg jobLinkSentinel,
          { s with jobLink := true, jobExecutionLink := jobLinkSentinel })) := by
  obtain ⟨hc1, hc2, hc3, hc4⟩ := hinv
  have hud := hc3 hsc
  have hus := hc2 hud
  obtain ⟨hjs, hne⟩ := hc1 hus
  have hsent : getJobLink (some content) = jobLinkSentinel := by
    rw [getJobLink, hfail]
  rw [hsent] at hval
  constructor
  · have hbody : advanceBody env s = jobStepsLoop env s := by
      rw [advanceBody, if_neg (by simp [hjs]), if_neg (by simp [hne])]
    rw [advance, hbody, jobStepsLoop, if_pos (by simp [hjs, hjd]), step1,
      if_neg (by simp [hus]), step2, if_neg (by simp [hud]), step3,
      if_neg (by simp [hsc]), step4, if_pos (by simp [hsc, hjl]),
      if_pos hchk, hchk, hval]
  · intro env'
    have hinv' : chainInv { s with jobLink := true, jobExecutionLink := jobLinkSentinel } :=
      ⟨fun _ => ⟨hjs, hne⟩, fun _ => hus, fun _ => hud, fun _ => hsc⟩
    exact advance_fix_of_linkFound env' _ hinv' rfl

/-- Witness for C9 at a concrete state and a snapshot without a link. -/
theorem claim_C9_sentinel_cache_witness :
    advance ⟨false, none, false, false, false, true, false,
        "Job link not found or not yet generated"⟩
      ⟨true, true, true, true, true, false, false, "old"⟩ =
      (linkMsg jobLinkSentinel,
        ⟨true, true, true, true, true, true, false, jobLinkSentinel⟩) :=
  (claim_C9_sentinel_cache _ _ "nothing here" (by decide) rfl rfl rfl rfl
    (by decide) (by decide)).1

/-- C10 counterexample: the run-tests prologue finds the stale log anywhere
in the tree (`findFileAbsolutePath(process.cwd(), …)`) but deletes only the
cwd-relative path `hyperexecute-cli.log`; a stale log living in a
subdirectory survives the prologue, is still resolved by the watcher's
path search, and its old "Job Link" milestone satisfies the new run's
watcher on its first tick. -/
theorem claim_C10_counterexample :
    runTestsPrologue [⟨["sub"], "hyperexecute-cli.log", "x Job Link x"⟩]
        freshState =
      (freshState, [⟨["sub"], "hyperexecute-cli.log", "x Job Link x"⟩]) ∧
    (findFileAbsolutePath [⟨["sub"], "hyperexecute-cli.log", "x Job Link x"⟩]
        cliLogName).isSome = true ∧
    watcherResult logContains 30000 5000 (by omega) "Job Link"
        (fun _ => .fileContent "x Job Link x") = .found := by
  refine ⟨by decide, by decide, ?_⟩
  exact (watcherResult_const_match logContains 30000 5000 (by omega)
    "x Job Link x" "Job Link" (by decide) (by omega)).1

/-- C10 (amended): the prologue always resets all seven run flags to false;
and provided every file named `hyperexecute-cli.log` sits directly in the
working directory under that exact name, the prologue deletes it, after
which the watcher's path search finds no log file — so no milestone
substring of a previous run's log can satisfy the new run's watchers.  A
stale log elsewhere in the tree is found but not deleted. -/
theorem claim_C10_prologue (fs : List FSFile) (s : ServerState)
    (hroot : ∀ f ∈ fs, lowerEqName f.fname cliLogName = true →
      f.dirs = [] ∧ f.fname = cliLogName) :
    (runTestsPrologue fs s).1 = resetFlags s ∧
    (resetFlags s).jobStarted = false ∧ (resetFlags s).noError = false ∧
    (resetFlags s).uploadStarted = false ∧ (resetFlags s).uploadDone = false ∧
    (resetFlags s).serverConnected = false ∧ (resetFlags s).jobLink = false ∧
    (resetFlags s).jobDone = false ∧
    findFileAbsolutePath (runTestsPrologue fs s).2 cliLogName = none := by
  refine ⟨?_, rfl, rfl, rfl, rfl, rfl, rfl, rfl, ?_⟩
  · rw [runTestsPrologue]
    cases findFileAbsolutePath fs cliLogName <;> rfl
  · rw [runTestsPrologue]
    cases hfind : findFileAbsolutePath fs cliLogName with
    | none =>
      simp only
      exact List.find?_eq_none.mpr (fun f hf hp =>
        (List.find?_eq_none.mp hfind f hf) hp)
    | some f =>
      simp only
      rw [findFileAbsolutePath]
      refine List.find?_eq_none.mpr ?_
      intro g hg hp
      rw [deleteFile, List.mem_filter] at hg
      obtain ⟨hgfs, hgkeep⟩ := hg
      obtain ⟨hd, hn⟩ := hroot g hgfs hp
      rw [hd, hn] at hgkeep
      simp at hgkeep

/-- Witness for C10 (amended): a stale root-level log is deleted and the
watcher's path search then fails. -/
theorem claim_C10_prologue_witness :
    (runTestsPrologue [⟨[], "hyperexecute-cli.log", "old Job Link"⟩]
        freshState).1 = resetFlags freshState ∧
    findFileAbsolutePath
      (runTestsPrologue [⟨[], "hyperexecute-cli.log", "old Job Link"⟩]
        freshState).2 cliLogName = none := by
  have h := claim_C10_prologue [⟨[], "hyperexecute-cli.log", "old Job Link"⟩]
    freshState (by decide)
  exact ⟨h.1, h.2.2.2.2.2.2.2.2⟩

end WellsMCP
